import Mathlib

/-!
Verification development for
`src/Composer/packages/client/src/recoilModel/dispatchers/utils/project.ts`
(Bot Framework Composer client).

The TypeScript code is shallowly embedded:

* plain JavaScript values (the `DialogSetting` objects, local-storage
  entries, error payloads) become the inductive type `JVal`;
* `lodash/get` and `lodash/set` on dotted property paths become `objGet`
  and `objSet` over key lists; JavaScript truthiness becomes `jsTruthy`;
* browser local storage (`settingStorage`) becomes an explicit `Store`
  argument mapping a project id to the optional stored entry;
* the recoil state touched by the skill-opening orchestration becomes the
  explicit record `ClientState`, and the asynchronous skill completions
  become an explicit completion list folded over that state.

One JavaScript-semantics note: `lodash/set` treats arrays/boxed values as
objects when walking a path; here every non-object intermediate node is
replaced by a fresh object.  The difference is unobservable through
`objGet` at the property paths handled by this file (all keys are
non-numeric identifiers).
-/

/-- A JavaScript value as used by the settings/merge code: strings,
numbers (modelled as integers: no float arithmetic occurs here),
booleans, null, arrays, and objects as ordered association lists. -/
inductive JVal where
  | str (s : String)
  | num (n : Int)
  | boolean (b : Bool)
  | null
  | arr (xs : List JVal)
  | obj (fields : List (String × JVal))

/-- JavaScript truthiness: `''`, `0`, `false`, `null` are falsy;
every array and object (even empty) is truthy. -/
def jsTruthy : JVal → Bool
  | .str s => s ≠ ""
  | .num n => n ≠ 0
  | .boolean b => b
  | .null => false
  | .arr _ => true
  | .obj _ => true

/-- Truthiness of a possibly-absent value (`undefined` is falsy). -/
def optTruthy : Option JVal → Bool
  | none => false
  | some v => jsTruthy v

/-- First-occurrence lookup in an object's field list. -/
def lookupField : List (String × JVal) → String → Option JVal
  | [], _ => none
  | (k, v) :: fs, key => if k = key then some v else lookupField fs key

/-- Assign a field: replace the first occurrence in place, else append
(the JavaScript property-assignment order behaviour). -/
def setField : List (String × JVal) → String → JVal → List (String × JVal)
  | [], key, x => [(key, x)]
  | (k, v) :: fs, key, x => if k = key then (k, x) :: fs else (k, v) :: setField fs key x

/-- `lodash/get` over a split dotted path: descend through objects,
`undefined` (`none`) as soon as a key is missing or a non-object is hit
with path remaining. -/
def objGet : JVal → List String → Option JVal
  | v, [] => some v
  | .obj fs, key :: p =>
    match lookupField fs key with
    | some v => objGet v p
    | none => none
  | _, _ :: _ => none

/-- The intermediate node `lodash/set` keeps walking into: the existing
child object, or a fresh empty object when the child is missing or not an
object. -/
def childObj (fs : List (String × JVal)) (key : String) : JVal :=
  match lookupField fs key with
  | some (.obj gs) => JVal.obj gs
  | _ => JVal.obj []

/-- `lodash/set` over a split dotted path: a non-object base is returned
unchanged; a missing or non-object intermediate is replaced by a fresh
empty object (keys here are never array indices). -/
def objSet : JVal → List String → JVal → JVal
  | v, [], _ => v
  | .obj fs, [key], x => .obj (setField fs key x)
  | .obj fs, key₁ :: key₂ :: p, x =>
    .obj (setField fs key₁ (objSet (childObj fs key₁) (key₂ :: p) x))
  | v, _ :: _, _ => v

/-- Boolean path divergence: the two paths differ at some component that
both of them reach. -/
def divergesB : List String → List String → Bool
  | a :: p, b :: q => if a = b then divergesB p q else true
  | _, _ => false

/-! ## Settings merging (`mergeLocalStorage`, `mergeLuisName`, `getMergedSettings`) -/

/-- The `settingStorage` browser local storage, made explicit: maps a
project id to the stored settings entry, `none` when no entry exists. -/
def Store := String → Option JVal

/-- Modelled from the spec: `SensitiveProperties` is imported from
`@bfc/shared`, which is not part of this repository slice; the spec only
says the merge covers "a fixed list of 'sensitive' property paths"
(credential-like settings keys).  Dotted paths are pre-split into key
lists. -/
def SensitiveProperties : List (List String) :=
  [["MicrosoftAppPassword"],
   ["luis", "endpointKey"],
   ["luis", "authoringKey"],
   ["qna", "endpointKey"],
   ["qna", "subscriptionKey"]]

/-- Modelled from the spec: `RootBotManagedProperties` is imported from
`@bfc/shared`, which is not part of this repository slice; the spec only
says some sensitive values are "managed by the root bot".  It overlaps
`SensitiveProperties` (overlapping entries are skipped by the
local-storage merge) and contains one path of its own. -/
def RootBotManagedProperties : List (List String) :=
  [["MicrosoftAppId"],
   ["MicrosoftAppPassword"],
   ["luis", "authoringKey"],
   ["qna", "subscriptionKey"]]

/-- One iteration of the `for (const property of SensitiveProperties)`
loop body of `mergeLocalStorage`: root-bot-managed paths are skipped;
otherwise a truthy locally stored value is written over the settings, and
a falsy/absent one writes back the empty string. -/
def mergeStep (localSetting acc : JVal) (property : List String) : JVal :=
  if property ∈ RootBotManagedProperties then acc
  else
    match objGet localSetting property with
    | some value => if jsTruthy value then objSet acc property value
                    else objSet acc property (.str "")
    | none => objSet acc property (.str "")

/-- `mergeLocalStorage` of project.ts: shallow-copies the settings (the
copy is the identity in this pure embedding) and, when a truthy
local-storage entry exists for the project, folds the loop body over
`SensitiveProperties`. -/
def mergeLocalStorage (store : Store) (projectId : String) (settings : JVal) : JVal :=
  match store projectId with
  | some localSetting =>
    if jsTruthy localSetting then SensitiveProperties.foldl (mergeStep localSetting) settings
    else settings
  | none => settings

/-- `mergeLuisName` of project.ts: `luis.name` keeps its truthy value and
otherwise defaults to the bot name (`objectGet(..., 'luis.name', '') ||
botName`); `cloneDeep` is the identity in this pure embedding. -/
def mergeLuisName (settings : JVal) (botName : String) : JVal :=
  let luisName :=
    match objGet settings ["luis", "name"] with
    | some v => if jsTruthy v then v else JVal.str botName
    | none => JVal.str botName
  objSet settings ["luis", "name"] luisName

/-- Object-spread of a single JavaScript value (`{ ...skillData }`):
objects copy their fields, arrays and strings spread to index-keyed
fields, other primitives spread to the empty object. -/
def shallowCopy : JVal → JVal
  | .obj fs => .obj fs
  | .arr xs => .obj ((xs.enum.map fun p => (toString p.1, p.2)))
  | .str s => .obj ((s.toList.enum.map fun p => (toString p.1, JVal.str (String.singleton p.2))))
  | _ => .obj []

/-- `getMergedSettings` of project.ts: local-storage merge, then
luis-name defaulting, then array-shaped `skill` fields converted through
`convertSkillsToDictionary` (a `@bfc/shared` helper outside this
repository slice, kept abstract as a parameter) applied to shallow copies
of the array elements. -/
def getMergedSettings (convertSkillsToDictionary : List JVal → JVal) (store : Store)
    (projectId : String) (settings : JVal) (botName : String) : JVal :=
  let m₁ := mergeLocalStorage store projectId settings
  let m₂ := mergeLuisName m₁ botName
  match objGet m₂ ["skill"] with
  | some (.arr xs) => objSet m₂ ["skill"] (convertSkillsToDictionary (xs.map shallowCopy))
  | _ => m₂

/-! ## Error payloads and the project-loader entry points -/

/-- The `data` part of an axios error response (`error.response.data`),
as far as this file inspects it: its optional `message` string. -/
structure ErrData where
  message : Option String
deriving DecidableEq

/-- The optional `response` part of an error (`error.response`). -/
structure ErrResponse where
  data : Option ErrData
deriving DecidableEq

/-- An exception value as inspected by project.ts: optional nested
`response.data.message` and optional top-level `message`. -/
structure ProjErr where
  response : Option ErrResponse
  message : Option String
deriving DecidableEq

/-- `error.response?.data` flattened through the optional chain. -/
def respData (e : ProjErr) : Option ErrData :=
  e.response.bind ErrResponse.data

/-- `error.response?.data?.message ?? error.message ?? ''` — the message
`handleProjectFailure` feeds to the runtime-error pattern matchers
(nullish coalescing: an empty string on the way is kept). -/
def errMessage (e : ProjErr) : String :=
  match (respData e).bind ErrData.message with
  | some m => m
  | none =>
    match e.message with
    | some m => m
    | none => ""

/-- Truthiness of `payload?.response?.data?.message` as tested by
`setErrorOnBotProject`. -/
def respDataMessageTruthy (e : ProjErr) : Bool :=
  match (respData e).bind ErrData.message with
  | some m => m ≠ ""
  | none => false

/-- What `setErrorOnBotProject` stores in `botErrorState`: the response
data object when its message is truthy, otherwise the raw payload. -/
inductive BotError where
  | fromResponse (d : ErrData)
  | raw (e : ProjErr)
deriving DecidableEq

/-- The value `setErrorOnBotProject` ends up storing for a payload. -/
def storedBotError (payload : ProjErr) : BotError :=
  if respDataMessageTruthy payload then
    match respData payload with
    | some d => .fromResponse d
    | none => .raw payload
  else .raw payload

/-- The result tuple of the project-loader entry points:
`{ botFiles, projectData, error }`. -/
structure FetchResult where
  botFiles : Option JVal
  projectData : Option JVal
  error : Option ProjErr

/-- `loadProjectData` of project.ts: processes the fetched data (settings
merge, `indexer.index`, `BotIndexer.validate` — the indexing pipeline
lives in `@bfc/indexers` outside this repository slice and is kept
abstract as the fallible `process` argument producing the `botFiles`
value) and on success returns `{ botFiles, projectData: data, error:
undefined }`. -/
def loadProjectData (process : JVal → Except ProjErr JVal) (data : JVal) :
    Except ProjErr FetchResult :=
  match process data with
  | .ok botFiles => .ok ⟨some botFiles, some data, none⟩
  | .error ex => .error ex

/-- `fetchProjectDataByPath` of project.ts: the whole body — the
`httpClient.put('/projects/open', ...)` call (its outcome is the explicit
`response` argument) followed by `loadProjectData` — runs inside
`try/catch`, and the catch returns
`{ botFiles: undefined, projectData: undefined, error: ex }`. -/
def fetchProjectDataByPath (response : Except ProjErr JVal)
    (process : JVal → Except ProjErr JVal) : FetchResult :=
  match response with
  | .error ex => ⟨none, none, some ex⟩
  | .ok data =>
    match loadProjectData process data with
    | .ok r => r
    | .error ex => ⟨none, none, some ex⟩

/-- `fetchProjectDataById` of project.ts: identical try/catch shape over
`httpClient.get('/projects/:id')` followed by `loadProjectData`. -/
def fetchProjectDataById (response : Except ProjErr JVal)
    (process : JVal → Except ProjErr JVal) : FetchResult :=
  match response with
  | .error ex => ⟨none, none, some ex⟩
  | .ok data =>
    match loadProjectData process data with
    | .ok r => r
    | .error ex => ⟨none, none, some ex⟩

/-- The warning flags and generic application error state touched by
`handleProjectFailure`. -/
structure WarnState where
  warnAboutDotNet : Bool
  warnAboutFunctions : Bool
  applicationError : Option ProjErr
deriving DecidableEq

/-- `handleProjectFailure` of project.ts.  The two matchers
`checkIfDotnetVersionMissing` / `checkIfFunctionsMissing` live in
`utils/runtimeErrors` outside this repository slice; modelled from the
spec ("specific error messages are pattern-matched to detect known
environment problems") as abstract predicates on the message.  `setError`
(dispatchers/shared, also outside the slice) is modelled from the spec
("all other errors are surfaced generically") as storing the error in the
application error state. -/
def handleProjectFailure (checkIfDotnetVersionMissing checkIfFunctionsMissing : String → Bool)
    (error : ProjErr) (s : WarnState) : WarnState :=
  let isDotnetError := checkIfDotnetVersionMissing (errMessage error)
  let isFunctionsError := checkIfFunctionsMissing (errMessage error)
  if isDotnetError then { s with warnAboutDotNet := true }
  else if isFunctionsError then { s with warnAboutFunctions := true }
  else { s with warnAboutDotNet := false, warnAboutFunctions := false,
                applicationError := some error }

/-! ## The skill-tree opener (`openRootBotAndSkills`) -/

/-- A skill entry of the bot-project file (`BotProjectSpaceSkill`): an
optional `remote` flag, an optional workspace path, an optional manifest
URL. -/
structure BotProjectSpaceSkill where
  remote : Bool
  workspace : Option String
  manifest : Option String
deriving DecidableEq

/-- Truthiness of an optional string field (`undefined` and `''` are
falsy). -/
def optStrTruthy : Option String → Bool
  | some s => s ≠ ""
  | none => false

/-- How the `openRootBotAndSkills` loop treats one skill: `some false` —
open locally (`!skill.remote && skill.workspace`), `some true` — open
remotely (`skill.manifest`), `none` — neither branch creates a promise. -/
def skillPromiseKind (skill : BotProjectSpaceSkill) : Option Bool :=
  if !skill.remote && optStrTruthy skill.workspace then some false
  else if optStrTruthy skill.manifest then some true
  else none

/-- The recoil state touched by the skill-opening orchestration.
Per-project atom families become functions from project id. -/
structure ClientState where
  botProjectIds : List String
  botProjectSpaceLoaded : Bool
  botDisplayName : String → Option String
  botNameIdentifier : String → Option String
  botError : String → Option BotError
  projectMetaData : String → Option (Bool × Bool)

/-- Point update of a per-project map. -/
def mapSet (f : String → Option α) (key : String) (v : α) : String → Option α :=
  fun k => if k = key then some v else f k

/-- `addProjectToBotProjectSpace` of project.ts: append the project id,
and set the space-loaded flag when the id count reaches `skillCt` (the
total expected project count). -/
def addProjectToBotProjectSpace (skillCt : Nat) (projectId : String)
    (s : ClientState) : ClientState :=
  let botProjectIds := s.botProjectIds ++ [projectId]
  { s with
    botProjectIds := botProjectIds,
    botProjectSpaceLoaded :=
      if botProjectIds.length = skillCt then true else s.botProjectSpaceLoaded }

/-- `setErrorOnBotProject` of project.ts: store `payload.response.data`
when its message is truthy, else the raw payload (the log side effect is
outside the modelled state). -/
def setErrorOnBotProject (projectId : String) (payload : ProjErr)
    (s : ClientState) : ClientState :=
  if respDataMessageTruthy payload then
    match respData payload with
    | some d => { s with botError := mapSet s.botError projectId (.fromResponse d) }
    | none => { s with botError := mapSet s.botError projectId (.raw payload) }
  else { s with botError := mapSet s.botError projectId (.raw payload) }

/-- `handleSkillLoadingFailure` of project.ts: under a freshly generated
project id (`uuid()`, passed in explicitly as `projectId`), record
non-root metadata, use the skill's name identifier as display name and
name identifier, and attach the error. -/
def handleSkillLoadingFailure (projectId : String) (isRemote : Bool)
    (skillNameIdentifier : String) (ex : ProjErr) (s : ClientState) : ClientState :=
  let s := { s with projectMetaData := mapSet s.projectMetaData projectId (false, isRemote) }
  let s := { s with botDisplayName := mapSet s.botDisplayName projectId skillNameIdentifier }
  let s := { s with botNameIdentifier := mapSet s.botNameIdentifier projectId skillNameIdentifier }
  setErrorOnBotProject projectId ex s

/-- The eventual outcome of one skill's promise: resolution with the
opened project id, or rejection with an exception (the fresh placeholder
id the catch handler will generate is carried alongside). -/
inductive SkillOutcome where
  | success (projectId : String)
  | failure (freshId : String) (ex : ProjErr)
deriving DecidableEq

/-- One asynchronous skill completion: which skill (name identifier and
the `isRemote` flag captured by the loop) and its outcome. -/
structure SkillCompletion where
  nameIdentifier : String
  isRemote : Bool
  outcome : SkillOutcome
deriving DecidableEq

/-- The project id a completion contributes to `botProjectIdsState`. -/
def completionId (c : SkillCompletion) : String :=
  match c.outcome with
  | .success projectId => projectId
  | .failure freshId _ => freshId

/-- The placeholder id a completion writes per-project state under —
`some` exactly for rejected skills. -/
def completionWritesAt (c : SkillCompletion) : Option String :=
  match c.outcome with
  | .success _ => none
  | .failure freshId _ => some freshId

/-- Processing one settled skill promise: the `.then` handler counts the
opened project (the endpoint/publish-status dispatcher calls touch no
modelled state); the `.catch` handler runs `handleSkillLoadingFailure`
and then counts the placeholder. -/
def processCompletion (totalProjectsCount : Nat) (s : ClientState)
    (c : SkillCompletion) : ClientState :=
  match c.outcome with
  | .success projectId => addProjectToBotProjectSpace totalProjectsCount projectId s
  | .failure freshId ex =>
    addProjectToBotProjectSpace totalProjectsCount freshId
      (handleSkillLoadingFailure freshId c.isRemote c.nameIdentifier ex s)

/-- The skills of the bot-project file for which the loop creates a
promise, with the `isRemote` flag the loop computes for each. -/
def openableSkills (skills : List (String × BotProjectSpaceSkill)) : List (String × Bool) :=
  skills.filterMap fun p => (skillPromiseKind p.2).map fun isRemote => (p.1, isRemote)

/-- A completion list is valid for a skill mapping when it settles
exactly the skills that got a promise, each with its loop-computed
`isRemote` flag, in an arbitrary completion order. -/
def ValidCompletions (skills : List (String × BotProjectSpaceSkill))
    (completions : List SkillCompletion) : Prop :=
  (completions.map fun c => (c.nameIdentifier, c.isRemote)).Perm (openableSkills skills)

/-- `openRootBotAndSkills` of project.ts, restricted to the modelled
state, for a project whose bot-project file exists: `initBotState` sets
the root display name; the root name identifier (its lodash `camelCase`
is applied by the caller of this model) and `botProjectIdsState :=
[rootBotProjectId]` are set; then with `totalProjectsCount =
Object.keys(skills).length + 1`, either the skill promises settle (the
`completions` fold) or — with no skills — the loaded flag is set
immediately. -/
def openRootBotAndSkills (rootBotProjectId rootBotName rootNameIdentifier : String)
    (skills : List (String × BotProjectSpaceSkill))
    (completions : List SkillCompletion) (s₀ : ClientState) : ClientState :=
  let s₁ := { s₀ with
    botDisplayName := mapSet s₀.botDisplayName rootBotProjectId rootBotName,
    botNameIdentifier := mapSet s₀.botNameIdentifier rootBotProjectId rootNameIdentifier,
    botProjectIds := [rootBotProjectId] }
  let totalProjectsCount := skills.length + 1
  if totalProjectsCount > 1 then
    completions.foldl (processCompletion totalProjectsCount) s₁
  else
    { s₁ with botProjectSpaceLoaded := true }

@[simp]
theorem lookupField_setField_self (fs : List (String × JVal)) (k : String) (x : JVal) :
    lookupField (setField fs k x) k = some x := by
  induction fs with
  | nil => simp [setField, lookupField]
  | cons hd tl ih =>
    obtain ⟨k₀, v₀⟩ := hd
    by_cases h : k₀ = k
    · simp [setField, lookupField, h]
    · simp [setField, lookupField, h, ih]

theorem lookupField_setField_ne (fs : List (String × JVal)) (k k₂ : String) (x : JVal)
    (h : k ≠ k₂) : lookupField (setField fs k x) k₂ = lookupField fs k₂ := by
  induction fs with
  | nil => simp [setField, lookupField, h]
  | cons hd tl ih =>
    obtain ⟨k₀, v₀⟩ := hd
    by_cases h₀ : k₀ = k
    · subst h₀
      simp [setField, lookupField, h]
    · simp [setField, lookupField, h₀, ih]

theorem divergesB_left_ne_nil {p q : List String} (h : divergesB p q = true) : p ≠ [] := by
  cases p with
  | nil => cases q <;> simp [divergesB] at h
  | cons a p => simp

theorem divergesB_right_ne_nil {p q : List String} (h : divergesB p q = true) : q ≠ [] := by
  cases q with
  | nil => cases p <;> simp [divergesB] at h
  | cons a q => simp

theorem objGet_obj_cons_some (fs : List (String × JVal)) (k : String) (p : List String)
    (v : JVal) (h : lookupField fs k = some v) : objGet (.obj fs) (k :: p) = objGet v p := by
  simp [objGet, h]

theorem objGet_obj_cons_none (fs : List (String × JVal)) (k : String) (p : List String)
    (h : lookupField fs k = none) : objGet (.obj fs) (k :: p) = none := by
  simp [objGet, h]

/-- Reading a non-empty path through the walk child agrees with reading it
through the original object. -/
theorem objGet_childObj (fs : List (String × JVal)) (k : String) (q : List String)
    (hq : q ≠ []) : objGet (childObj fs k) q = objGet (.obj fs) (k :: q) := by
  obtain ⟨d, q₂, rfl⟩ : ∃ d q₂, q = d :: q₂ := by
    cases q with
    | nil => exact absurd rfl hq
    | cons d q₂ => exact ⟨d, q₂, rfl⟩
  unfold childObj
  cases hl : lookupField fs k with
  | none => simp [objGet, hl, lookupField]
  | some c => cases c <;> simp [objGet, hl, lookupField]

/-- Setting along a path that diverges from the read path leaves the read
unchanged. -/
theorem objGet_objSet_of_divergesB (m x : JVal) (p q : List String)
    (h : divergesB p q = true) : objGet (objSet m p x) q = objGet m q := by
  induction p generalizing m q with
  | nil => cases q <;> simp [divergesB] at h
  | cons a p ih =>
    cases q with
    | nil => simp [divergesB] at h
    | cons b q =>
      cases m with
      | obj fs =>
        by_cases hab : a = b
        · subst hab
          rw [divergesB, if_pos rfl] at h
          have hq : q ≠ [] := divergesB_right_ne_nil h
          cases p with
          | nil => simp [divergesB] at h
          | cons c p₂ =>
            rw [show objSet (.obj fs) (a :: c :: p₂) x
                = .obj (setField fs a (objSet (childObj fs a) (c :: p₂) x)) from rfl]
            rw [objGet_obj_cons_some _ _ _ _ (lookupField_setField_self fs a _)]
            rw [ih _ _ h, objGet_childObj _ _ _ hq]
        · cases p with
          | nil =>
            rw [show objSet (.obj fs) [a] x = .obj (setField fs a x) from rfl]
            simp [objGet, lookupField_setField_ne fs a b x hab]
          | cons c p₂ =>
            rw [show objSet (.obj fs) (a :: c :: p₂) x
                = .obj (setField fs a (objSet (childObj fs a) (c :: p₂) x)) from rfl]
            simp [objGet, lookupField_setField_ne fs a b _ hab]
      | str s => rfl
      | num n => rfl
      | boolean b₀ => rfl
      | null => rfl
      | arr xs => rfl

/-- Setting a non-empty path on an object makes the value readable at
that path. -/
theorem objGet_objSet_self (fs : List (String × JVal)) (p : List String) (x : JVal)
    (hp : p ≠ []) : objGet (objSet (.obj fs) p x) p = some x := by
  induction p generalizing fs with
  | nil => exact absurd rfl hp
  | cons a p ih =>
    cases p with
    | nil => simp [objSet, objGet]
    | cons b p₂ =>
      rw [show objSet (.obj fs) (a :: b :: p₂) x
          = .obj (setField fs a (objSet (childObj fs a) (b :: p₂) x)) from rfl]
      rw [objGet_obj_cons_some _ _ _ _ (lookupField_setField_self fs a _)]
      obtain ⟨gs, hgs⟩ : ∃ gs, childObj fs a = JVal.obj gs := by
        unfold childObj
        cases hl : lookupField fs a with
        | none => exact ⟨[], rfl⟩
        | some c => cases c <;> exact ⟨_, rfl⟩
      rw [hgs]
      exact ih gs (by simp)

/-- An object stays an object under `objSet`. -/
theorem objSet_obj (fs : List (String × JVal)) (p : List String) (x : JVal) :
    ∃ gs, objSet (.obj fs) p x = .obj gs := by
  cases p with
  | nil => exact ⟨fs, rfl⟩
  | cons a p =>
    cases p with
    | nil => exact ⟨setField fs a x, rfl⟩
    | cons b p₂ => exact ⟨_, rfl⟩

theorem jsTruthy_of_optTruthy_objGet_cons {v : JVal} {k : String} {p : List String}
    (h : optTruthy (objGet v (k :: p)) = true) : jsTruthy v = true := by
  cases v <;> simp [objGet, optTruthy, jsTruthy] at h ⊢

theorem exists_obj_of_optTruthy_objGet_cons {v : JVal} {k : String} {p : List String}
    (h : optTruthy (objGet v (k :: p)) = true) : ∃ es, v = JVal.obj es := by
  cases v <;> first
    | exact ⟨_, rfl⟩
    | simp [objGet, optTruthy] at h

theorem mergeStep_root (ls acc : JVal) (q : List String)
    (h : q ∈ RootBotManagedProperties) : mergeStep ls acc q = acc := by
  simp [mergeStep, h]

theorem mergeStep_obj (ls : JVal) (fs : List (String × JVal)) (q : List String) :
    ∃ gs, mergeStep ls (.obj fs) q = .obj gs := by
  unfold mergeStep
  by_cases h : q ∈ RootBotManagedProperties
  · rw [if_pos h]
    exact ⟨fs, rfl⟩
  · rw [if_neg h]
    cases objGet ls q with
    | none => exact objSet_obj fs q _
    | some v =>
      show ∃ gs, (if jsTruthy v then objSet (.obj fs) q v
                  else objSet (.obj fs) q (.str "")) = JVal.obj gs
      by_cases ht : jsTruthy v
      · rw [if_pos ht]
        exact objSet_obj fs q v
      · rw [if_neg ht]
        exact objSet_obj fs q _

theorem objGet_mergeStep_of_divergesB (ls acc : JVal) (q p : List String)
    (h : divergesB q p = true) : objGet (mergeStep ls acc q) p = objGet acc p := by
  unfold mergeStep
  by_cases hq : q ∈ RootBotManagedProperties
  · rw [if_pos hq]
  · rw [if_neg hq]
    cases objGet ls q with
    | none => exact objGet_objSet_of_divergesB _ _ _ _ h
    | some v =>
      show objGet (if jsTruthy v then objSet acc q v else objSet acc q (.str "")) p = _
      by_cases ht : jsTruthy v
      · rw [if_pos ht]
        exact objGet_objSet_of_divergesB _ _ _ _ h
      · rw [if_neg ht]
        exact objGet_objSet_of_divergesB _ _ _ _ h

theorem objGet_mergeStep_self (ls : JVal) (fs : List (String × JVal)) (p : List String)
    (hnp : p ∉ RootBotManagedProperties) (hpn : p ≠ []) :
    objGet (mergeStep ls (.obj fs) p) p =
      (match objGet ls p with
       | some v => if jsTruthy v then some v else some (JVal.str "")
       | none => some (JVal.str "")) := by
  unfold mergeStep
  rw [if_neg hnp]
  cases objGet ls p with
  | none => exact objGet_objSet_self fs p _ hpn
  | some v =>
    show objGet (if jsTruthy v then objSet (.obj fs) p v else objSet (.obj fs) p (.str "")) p
      = if jsTruthy v then some v else some (JVal.str "")
    by_cases ht : jsTruthy v
    · rw [if_pos ht, if_pos ht]
      exact objGet_objSet_self fs p v hpn
    · rw [if_neg ht, if_neg ht]
      exact objGet_objSet_self fs p _ hpn

theorem objGet_foldl_mergeStep_skip (ls : JVal) (props : List (List String)) (acc : JVal)
    (p : List String) (h : ∀ q ∈ props, q ∈ RootBotManagedProperties ∨ divergesB q p = true) :
    objGet (props.foldl (mergeStep ls) acc) p = objGet acc p := by
  induction props generalizing acc with
  | nil => rfl
  | cons q qs ih =>
    rw [List.foldl_cons, ih _ (fun r hr => h r (List.mem_cons_of_mem _ hr))]
    rcases h q (List.mem_cons_self _ _) with hq | hq
    · rw [mergeStep_root _ _ _ hq]
    · exact objGet_mergeStep_of_divergesB _ _ _ _ hq

theorem foldl_mergeStep_obj (ls : JVal) (props : List (List String))
    (fs : List (String × JVal)) : ∃ gs, props.foldl (mergeStep ls) (.obj fs) = .obj gs := by
  induction props generalizing fs with
  | nil => exact ⟨fs, rfl⟩
  | cons q qs ih =>
    obtain ⟨gs, hgs⟩ := mergeStep_obj ls fs q
    rw [List.foldl_cons, hgs]
    exact ih gs

theorem mergeLocalStorage_store_none (store : Store) (projectId : String) (settings : JVal)
    (hs : store projectId = none) : mergeLocalStorage store projectId settings = settings := by
  simp [mergeLocalStorage, hs]

theorem mergeLocalStorage_obj (store : Store) (projectId : String)
    (fs : List (String × JVal)) :
    ∃ gs, mergeLocalStorage store projectId (.obj fs) = JVal.obj gs := by
  unfold mergeLocalStorage
  cases store projectId with
  | none => exact ⟨fs, rfl⟩
  | some e =>
    show (∃ gs, (if jsTruthy e then SensitiveProperties.foldl (mergeStep e) (.obj fs)
                 else .obj fs) = JVal.obj gs)
    by_cases he : jsTruthy e
    · rw [if_pos he]
      exact foldl_mergeStep_obj e SensitiveProperties fs
    · rw [if_neg he]
      exact ⟨fs, rfl⟩

/-- Any path that every sensitive path either root-skips or diverges from
passes through `mergeLocalStorage` unchanged. -/
theorem objGet_mergeLocalStorage_skip (store : Store) (projectId : String)
    (settings : JVal) (q : List String)
    (h : ∀ r ∈ SensitiveProperties, r ∈ RootBotManagedProperties ∨ divergesB r q = true) :
    objGet (mergeLocalStorage store projectId settings) q = objGet settings q := by
  unfold mergeLocalStorage
  cases store projectId with
  | none => rfl
  | some e =>
    show objGet (if jsTruthy e then SensitiveProperties.foldl (mergeStep e) settings
                 else settings) q = _
    by_cases he : jsTruthy e
    · rw [if_pos he]
      exact objGet_foldl_mergeStep_skip _ _ _ _ h
    · rw [if_neg he]

/-- Reading a non-root-bot-managed sensitive path after the local-storage
merge: truthy stored values win, falsy or absent ones become `''`. -/
theorem objGet_mergeLocalStorage_sensitive (store : Store) (projectId : String)
    (fs : List (String × JVal)) (entry : JVal) (p : List String)
    (hs : store projectId = some entry) (he : jsTruthy entry = true)
    (hp : p ∈ SensitiveProperties) (hnp : p ∉ RootBotManagedProperties) :
    objGet (mergeLocalStorage store projectId (.obj fs)) p =
      (match objGet entry p with
       | some v => if jsTruthy v then some v else some (JVal.str "")
       | none => some (JVal.str "")) := by
  have hm : mergeLocalStorage store projectId (.obj fs)
      = SensitiveProperties.foldl (mergeStep entry) (.obj fs) := by
    simp [mergeLocalStorage, hs, he]
  rw [hm]
  simp only [SensitiveProperties] at hp
  fin_cases hp
  · exact absurd (by decide) hnp
  · show objGet (SensitiveProperties.foldl (mergeStep entry) (.obj fs)) ["luis", "endpointKey"] = _
    simp only [SensitiveProperties]
    rw [List.foldl_cons, mergeStep_root _ _ _ (by decide), List.foldl_cons]
    rw [objGet_foldl_mergeStep_skip _ _ _ _ (by decide)]
    exact objGet_mergeStep_self _ _ _ hnp (by decide)
  · exact absurd (by decide) hnp
  · show objGet (SensitiveProperties.foldl (mergeStep entry) (.obj fs)) ["qna", "endpointKey"] = _
    simp only [SensitiveProperties]
    rw [List.foldl_cons, mergeStep_root _ _ _ (by decide), List.foldl_cons]
    obtain ⟨gs₁, hg₁⟩ := mergeStep_obj entry fs ["luis", "endpointKey"]
    rw [hg₁, List.foldl_cons, mergeStep_root _ _ _ (by decide), List.foldl_cons]
    rw [objGet_foldl_mergeStep_skip _ _ _ _ (by decide)]
    exact objGet_mergeStep_self _ _ _ hnp (by decide)
  · exact absurd (by decide) hnp

theorem objGet_mergeLuisName_of_divergesB (settings : JVal) (botName : String)
    (p : List String) (h : divergesB ["luis", "name"] p = true) :
    objGet (mergeLuisName settings botName) p = objGet settings p := by
  unfold mergeLuisName
  exact objGet_objSet_of_divergesB _ _ _ _ h

theorem objGet_mergeLuisName_self (fs : List (String × JVal)) (botName : String) :
    objGet (mergeLuisName (.obj fs) botName) ["luis", "name"] =
      some (match objGet (.obj fs) ["luis", "name"] with
            | some v => if jsTruthy v then v else JVal.str botName
            | none => JVal.str botName) := by
  unfold mergeLuisName
  exact objGet_objSet_self fs _ _ (by simp)

theorem mergeLuisName_obj (fs : List (String × JVal)) (botName : String) :
    ∃ gs, mergeLuisName (.obj fs) botName = JVal.obj gs := by
  unfold mergeLuisName
  exact objSet_obj fs _ _

/-- The `skill` conversion step of `getMergedSettings` does not disturb
paths diverging from `["skill"]`. -/
theorem objGet_getMergedSettings_of_divergesB (cnv : List JVal → JVal) (store : Store)
    (projectId : String) (settings : JVal) (botName : String) (p : List String)
    (h : divergesB ["skill"] p = true) :
    objGet (getMergedSettings cnv store projectId settings botName) p
      = objGet (mergeLuisName (mergeLocalStorage store projectId settings) botName) p := by
  simp only [getMergedSettings]
  cases hm : objGet (mergeLuisName (mergeLocalStorage store projectId settings) botName)
      ["skill"] with
  | none => rfl
  | some v =>
    cases v with
    | arr xs => exact objGet_objSet_of_divergesB _ _ _ _ h
    | str s => rfl
    | num n => rfl
    | boolean b => rfl
    | null => rfl
    | obj gs => rfl

/-- C1: in the settings produced by `getMergedSettings`, every sensitive
property path that is not root-bot-managed holds the locally stored value
whenever a local-storage entry exists for the project and that entry has
a truthy value at the path, while root-bot-managed sensitive paths are
left untouched by the local-storage merge. -/
theorem C1_getMergedSettings_sensitive_precedence
    (cnv : List JVal → JVal) (store : Store) (projectId botName : String)
    (fs : List (String × JVal)) (entry : JVal)
    (hs : store projectId = some entry) :
    (∀ p ∈ SensitiveProperties, p ∉ RootBotManagedProperties →
      optTruthy (objGet entry p) = true →
      objGet (getMergedSettings cnv store projectId (.obj fs) botName) p = objGet entry p)
    ∧ (∀ q ∈ SensitiveProperties, q ∈ RootBotManagedProperties →
      objGet (mergeLocalStorage store projectId (.obj fs)) q = objGet (.obj fs) q) := by
  constructor
  · intro p hp hnp ht
    have he : jsTruthy entry = true := by
      have hp₂ := hp
      simp only [SensitiveProperties] at hp₂
      fin_cases hp₂ <;> exact jsTruthy_of_optTruthy_objGet_cons ht
    obtain ⟨v, hv, htv⟩ : ∃ v, objGet entry p = some v ∧ jsTruthy v = true := by
      cases hg : objGet entry p with
      | none =>
        rw [hg] at ht
        simp [optTruthy] at ht
      | some v =>
        refine ⟨v, rfl, ?_⟩
        rw [hg] at ht
        exact ht
    have hdiv : divergesB ["skill"] p = true ∧ divergesB ["luis", "name"] p = true := by
      have hp₂ := hp
      simp only [SensitiveProperties] at hp₂
      fin_cases hp₂ <;> exact ⟨by decide, by decide⟩
    rw [objGet_getMergedSettings_of_divergesB _ _ _ _ _ _ hdiv.1]
    rw [objGet_mergeLuisName_of_divergesB _ _ _ hdiv.2]
    rw [objGet_mergeLocalStorage_sensitive store projectId fs entry p hs he hp hnp]
    rw [hv]
    show (if jsTruthy v then some v else some (JVal.str "")) = some v
    rw [if_pos htv]
  · intro q hq hqr
    apply objGet_mergeLocalStorage_skip
    intro r hr
    simp only [SensitiveProperties] at hq hr
    fin_cases hq <;> fin_cases hr <;>
      first
        | exact Or.inl (by decide)
        | exact Or.inr (by decide)
        | exact absurd hqr (by decide)

/-- Witness for C1: a stored `luis.endpointKey` wins over the remote
settings. -/
theorem C1_getMergedSettings_sensitive_precedence_witness :
    objGet (getMergedSettings (fun _ => JVal.null)
        (fun _ => some (JVal.obj [("luis", JVal.obj [("endpointKey", JVal.str "secret")])]))
        "proj" (JVal.obj [("luis", JVal.obj [("endpointKey", JVal.str "remote")])]) "bot")
        ["luis", "endpointKey"]
      = objGet (JVal.obj [("luis", JVal.obj [("endpointKey", JVal.str "secret")])])
          ["luis", "endpointKey"] :=
  (C1_getMergedSettings_sensitive_precedence (fun _ => JVal.null)
      (fun _ => some (JVal.obj [("luis", JVal.obj [("endpointKey", JVal.str "secret")])]))
      "proj" "bot" [("luis", JVal.obj [("endpointKey", JVal.str "remote")])]
      (JVal.obj [("luis", JVal.obj [("endpointKey", JVal.str "secret")])]) rfl).1
    ["luis", "endpointKey"] (by decide) (by decide) (by decide)

/-- C10: when a (truthy) local-storage entry exists for the project,
every non-root-bot-managed sensitive property whose locally stored value
is absent or falsy is overwritten with the empty string, replacing any
remote value; with no local-storage entry all sensitive properties are
unchanged. -/
theorem C10_mergeLocalStorage_falsy_and_absent
    (store : Store) (projectId : String) (fs : List (String × JVal)) :
    (∀ entry, store projectId = some entry → jsTruthy entry = true →
      ∀ p ∈ SensitiveProperties, p ∉ RootBotManagedProperties →
        optTruthy (objGet entry p) = false →
        objGet (mergeLocalStorage store projectId (.obj fs)) p = some (JVal.str ""))
    ∧ (store projectId = none →
      ∀ p ∈ SensitiveProperties,
        objGet (mergeLocalStorage store projectId (.obj fs)) p = objGet (.obj fs) p) := by
  constructor
  · intro entry hs he p hp hnp hf
    rw [objGet_mergeLocalStorage_sensitive store projectId fs entry p hs he hp hnp]
    cases hg : objGet entry p with
    | none => rfl
    | some v =>
      rw [hg] at hf
      show (if jsTruthy v then some v else some (JVal.str "")) = some (JVal.str "")
      rw [if_neg (by rw [show jsTruthy v = false from hf]; simp)]
  · intro hs p hp
    rw [mergeLocalStorage_store_none store projectId _ hs]

/-- Witness for C10: an entry that stores nothing at `luis.endpointKey`
forces the merged value to `''` even though the remote settings carried a
value. -/
theorem C10_mergeLocalStorage_falsy_and_absent_witness :
    objGet (mergeLocalStorage (fun _ => some (JVal.obj [("x", JVal.num 1)])) "proj"
        (.obj [("luis", JVal.obj [("endpointKey", JVal.str "remote")])]))
        ["luis", "endpointKey"]
      = some (JVal.str "") :=
  (C10_mergeLocalStorage_falsy_and_absent (fun _ => some (JVal.obj [("x", JVal.num 1)]))
      "proj" [("luis", JVal.obj [("endpointKey", JVal.str "remote")])]).1
    (JVal.obj [("x", JVal.num 1)]) rfl rfl ["luis", "endpointKey"]
    (by decide) (by decide) (by decide)

/-- C7: `getMergedSettings` keeps a truthy incoming `luis.name` and
defaults it to the bot name otherwise. -/
theorem C7_getMergedSettings_luis_name (cnv : List JVal → JVal) (store : Store)
    (projectId botName : String) (fs : List (String × JVal)) :
    objGet (getMergedSettings cnv store projectId (.obj fs) botName) ["luis", "name"]
      = some (match objGet (.obj fs) ["luis", "name"] with
              | some v => if jsTruthy v then v else JVal.str botName
              | none => JVal.str botName) := by
  rw [objGet_getMergedSettings_of_divergesB _ _ _ _ _ _ (by decide)]
  obtain ⟨gs, hgs⟩ := mergeLocalStorage_obj store projectId fs
  rw [hgs, objGet_mergeLuisName_self]
  have hpre : objGet (JVal.obj gs) ["luis", "name"] = objGet (JVal.obj fs) ["luis", "name"] := by
    rw [← hgs]
    exact objGet_mergeLocalStorage_skip _ _ _ _ (by decide)
  rw [hpre]

/-- C8: an array-shaped `skill` field becomes the dictionary produced by
the conversion function applied to shallow copies of the elements; a
non-array `skill` field leaves the settings exactly as the preceding
merge steps produced them. -/
theorem C8_getMergedSettings_skill_dictionary (cnv : List JVal → JVal) (store : Store)
    (projectId botName : String) (fs : List (String × JVal)) :
    (∀ xs, objGet (.obj fs) ["skill"] = some (.arr xs) →
      objGet (getMergedSettings cnv store projectId (.obj fs) botName) ["skill"]
        = some (cnv (xs.map shallowCopy)))
    ∧ ((∀ xs, objGet (.obj fs) ["skill"] ≠ some (.arr xs)) →
      getMergedSettings cnv store projectId (.obj fs) botName
        = mergeLuisName (mergeLocalStorage store projectId (.obj fs)) botName) := by
  have hskill : objGet (mergeLuisName (mergeLocalStorage store projectId (.obj fs)) botName)
      ["skill"] = objGet (JVal.obj fs) ["skill"] := by
    rw [objGet_mergeLuisName_of_divergesB _ _ _ (by decide)]
    exact objGet_mergeLocalStorage_skip _ _ _ _ (by decide)
  constructor
  · intro xs hxs
    simp only [getMergedSettings]
    rw [hskill.trans hxs]
    obtain ⟨gs, hgs⟩ : ∃ gs,
        mergeLuisName (mergeLocalStorage store projectId (.obj fs)) botName = JVal.obj gs := by
      obtain ⟨g₁, h₁⟩ := mergeLocalStorage_obj store projectId fs
      rw [h₁]
      exact mergeLuisName_obj g₁ botName
    show objGet (objSet (mergeLuisName (mergeLocalStorage store projectId (.obj fs)) botName)
        ["skill"] (cnv (xs.map shallowCopy))) ["skill"] = _
    rw [hgs]
    exact objGet_objSet_self gs ["skill"] _ (by simp)
  · intro hno
    simp only [getMergedSettings]
    cases hm : objGet (mergeLuisName (mergeLocalStorage store projectId (.obj fs)) botName)
        ["skill"] with
    | none => rfl
    | some v =>
      cases v with
      | arr xs => exact absurd (hskill.symm.trans hm) (hno xs)
      | str s => rfl
      | num n => rfl
      | boolean b => rfl
      | null => rfl
      | obj gs => rfl

/-- Witness for C8: a one-element skill array is fed (shallow-copied)
through the conversion function. -/
theorem C8_getMergedSettings_skill_dictionary_witness :
    objGet (getMergedSettings (fun xs => JVal.num xs.length) (fun _ => none) "proj"
        (.obj [("skill", JVal.arr [JVal.obj [("id", JVal.str "s1")]])]) "bot") ["skill"]
      = some (JVal.num 1) :=
  (C8_getMergedSettings_skill_dictionary (fun xs => JVal.num xs.length) (fun _ => none)
      "proj" "bot" [("skill", JVal.arr [JVal.obj [("id", JVal.str "s1")]])]).1
    [JVal.obj [("id", JVal.str "s1")]] rfl

/-- C5 counterexample: with identical arguments `(projectId, settings,
botName)` the result of `getMergedSettings` changes with the
local-storage state, refuting "two calls with equal arguments return
equal results regardless of any other state". -/
theorem C5_getMergedSettings_hidden_state_counterexample :
    getMergedSettings (fun _ => JVal.null) (fun _ => none) "proj" (JVal.obj []) "bot"
      ≠ getMergedSettings (fun _ => JVal.null) (fun _ => some (JVal.obj [])) "proj"
          (JVal.obj []) "bot" := by
  intro hcontra
  have h₁ : objGet (getMergedSettings (fun _ => JVal.null) (fun _ => none) "proj"
      (JVal.obj []) "bot") ["luis", "endpointKey"] = none := rfl
  have h₂ : objGet (getMergedSettings (fun _ => JVal.null) (fun _ => some (JVal.obj []))
      "proj" (JVal.obj []) "bot") ["luis", "endpointKey"] = some (JVal.str "") := rfl
  rw [hcontra] at h₁
  rw [h₁] at h₂
  exact Option.noConfusion h₂

/-- C5 amended: `getMergedSettings` is deterministic in its arguments
together with the project's local-storage entry — the only state it reads
is `settingStorage.get(projectId)`. -/
theorem C5_getMergedSettings_deterministic_given_store
    (cnv : List JVal → JVal) (store₁ store₂ : Store) (projectId : String)
    (settings : JVal) (botName : String) (h : store₁ projectId = store₂ projectId) :
    getMergedSettings cnv store₁ projectId settings botName
      = getMergedSettings cnv store₂ projectId settings botName := by
  simp only [getMergedSettings, mergeLocalStorage, h]

/-- Witness for the amended C5. -/
theorem C5_getMergedSettings_deterministic_given_store_witness :
    getMergedSettings (fun _ => JVal.null) (fun _ => none) "proj" (JVal.obj []) "bot"
      = getMergedSettings (fun _ => JVal.null)
          (fun s => if s = "other" then some JVal.null else none) "proj"
          (JVal.obj []) "bot" :=
  C5_getMergedSettings_deterministic_given_store (fun _ => JVal.null) (fun _ => none)
    (fun s => if s = "other" then some JVal.null else none) "proj" (JVal.obj []) "bot" rfl

/-! ### State-machine lemmas for the skill-tree opener -/

theorem setErrorOnBotProject_eq (projectId : String) (payload : ProjErr) (s : ClientState) :
    setErrorOnBotProject projectId payload s
      = { s with botError := mapSet s.botError projectId (storedBotError payload) } := by
  unfold setErrorOnBotProject storedBotError
  by_cases h : respDataMessageTruthy payload = true
  · rw [if_pos h, if_pos h]
    cases hd : respData payload with
    | none => rfl
    | some d => rfl
  · rw [if_neg h, if_neg h]

theorem handleSkillLoadingFailure_eq (projectId : String) (isRemote : Bool)
    (skillNameIdentifier : String) (ex : ProjErr) (s : ClientState) :
    handleSkillLoadingFailure projectId isRemote skillNameIdentifier ex s
      = { s with
          projectMetaData := mapSet s.projectMetaData projectId (false, isRemote),
          botDisplayName := mapSet s.botDisplayName projectId skillNameIdentifier,
          botNameIdentifier := mapSet s.botNameIdentifier projectId skillNameIdentifier,
          botError := mapSet s.botError projectId (storedBotError ex) } := by
  simp only [handleSkillLoadingFailure]
  rw [setErrorOnBotProject_eq]

theorem mapSet_self (f : String → Option α) (key : String) (v : α) :
    mapSet f key v key = some v := by
  simp [mapSet]

theorem mapSet_ne (f : String → Option α) (key k : String) (v : α) (h : k ≠ key) :
    mapSet f key v k = f k := by
  simp [mapSet, h]

theorem processCompletion_botProjectIds (t : Nat) (s : ClientState) (c : SkillCompletion) :
    (processCompletion t s c).botProjectIds = s.botProjectIds ++ [completionId c] := by
  obtain ⟨n, r, o⟩ := c
  cases o with
  | success pid => rfl
  | failure f ex =>
    show (addProjectToBotProjectSpace t f
        (handleSkillLoadingFailure f r n ex s)).botProjectIds = _
    rw [handleSkillLoadingFailure_eq]
    rfl

theorem processCompletion_loaded (t : Nat) (s : ClientState) (c : SkillCompletion) :
    (processCompletion t s c).botProjectSpaceLoaded
      = if s.botProjectIds.length + 1 = t then true else s.botProjectSpaceLoaded := by
  obtain ⟨n, r, o⟩ := c
  cases o with
  | success pid =>
    show (if (s.botProjectIds ++ [pid]).length = t then true else s.botProjectSpaceLoaded) = _
    rw [List.length_append, List.length_singleton]
  | failure f ex =>
    show (addProjectToBotProjectSpace t f
        (handleSkillLoadingFailure f r n ex s)).botProjectSpaceLoaded = _
    rw [handleSkillLoadingFailure_eq]
    show (if (s.botProjectIds ++ [f]).length = t then true else s.botProjectSpaceLoaded) = _
    rw [List.length_append, List.length_singleton]

theorem foldl_processCompletion_botProjectIds (t : Nat) (cs : List SkillCompletion)
    (s : ClientState) :
    (cs.foldl (processCompletion t) s).botProjectIds
      = s.botProjectIds ++ cs.map completionId := by
  induction cs generalizing s with
  | nil => simp
  | cons c cs ih =>
    rw [List.foldl_cons, ih, processCompletion_botProjectIds]
    simp

theorem foldl_processCompletion_loaded (t : Nat) (cs : List SkillCompletion)
    (s : ClientState) :
    (cs.foldl (processCompletion t) s).botProjectSpaceLoaded
      = (s.botProjectSpaceLoaded
         || decide (s.botProjectIds.length < t
                    ∧ t ≤ s.botProjectIds.length + cs.length)) := by
  induction cs generalizing s with
  | nil =>
    simp only [List.foldl_nil, List.length_nil, Nat.add_zero]
    have : ¬(s.botProjectIds.length < t ∧ t ≤ s.botProjectIds.length) := by omega
    simp [this]
  | cons c cs ih =>
    rw [List.foldl_cons, ih, processCompletion_loaded, processCompletion_botProjectIds,
      List.length_append]
    simp only [List.length_singleton, List.length_cons, List.length_nil, Nat.zero_add]
    by_cases h : s.botProjectIds.length + 1 = t
    · rw [if_pos h, Bool.true_or]
      have hprop : s.botProjectIds.length < t
          ∧ t ≤ s.botProjectIds.length + (cs.length + 1) := by omega
      rw [decide_eq_true hprop, Bool.or_true]
    · rw [if_neg h]
      congr 1
      exact decide_eq_decide.mpr (by omega)

theorem foldl_processCompletion_maps_stable (t : Nat) (cs : List SkillCompletion)
    (s : ClientState) (key : String)
    (h : ∀ c ∈ cs, completionWritesAt c ≠ some key) :
    (cs.foldl (processCompletion t) s).botDisplayName key = s.botDisplayName key
    ∧ (cs.foldl (processCompletion t) s).botNameIdentifier key = s.botNameIdentifier key
    ∧ (cs.foldl (processCompletion t) s).botError key = s.botError key := by
  induction cs generalizing s with
  | nil => exact ⟨rfl, rfl, rfl⟩
  | cons c cs ih =>
    have hc := h c (List.mem_cons_self _ _)
    have hrest := fun c' hc' => h c' (List.mem_cons_of_mem c hc')
    rw [List.foldl_cons]
    obtain ⟨h₁, h₂, h₃⟩ := ih (processCompletion t s c) hrest
    have hstep : (processCompletion t s c).botDisplayName key = s.botDisplayName key
        ∧ (processCompletion t s c).botNameIdentifier key = s.botNameIdentifier key
        ∧ (processCompletion t s c).botError key = s.botError key := by
      obtain ⟨n, r, o⟩ := c
      cases o with
      | success pid => exact ⟨rfl, rfl, rfl⟩
      | failure f ex =>
        have hf : key ≠ f := by
          intro he
          exact hc (by simp [completionWritesAt, he])
        have heq : processCompletion t s ⟨n, r, .failure f ex⟩
            = addProjectToBotProjectSpace t f
                { s with
                  projectMetaData := mapSet s.projectMetaData f (false, r),
                  botDisplayName := mapSet s.botDisplayName f n,
                  botNameIdentifier := mapSet s.botNameIdentifier f n,
                  botError := mapSet s.botError f (storedBotError ex) } := by
          show addProjectToBotProjectSpace t f (handleSkillLoadingFailure f r n ex s) = _
          rw [handleSkillLoadingFailure_eq]
        rw [heq]
        exact ⟨mapSet_ne _ _ _ _ hf, mapSet_ne _ _ _ _ hf, mapSet_ne _ _ _ _ hf⟩
    exact ⟨h₁.trans hstep.1, h₂.trans hstep.2.1, h₃.trans hstep.2.2⟩

theorem openableSkills_length_of_all_open (skills : List (String × BotProjectSpaceSkill))
    (h : ∀ p ∈ skills, (skillPromiseKind p.2).isSome = true) :
    (openableSkills skills).length = skills.length := by
  induction skills with
  | nil => rfl
  | cons p ps ih =>
    have hp := h p (List.mem_cons_self _ _)
    unfold openableSkills
    rw [List.filterMap_cons]
    cases hk : skillPromiseKind p.2 with
    | none => rw [hk] at hp; simp at hp
    | some r =>
      simp only [Option.map_some']
      rw [List.length_cons]
      have := ih (fun q hq => h q (List.mem_cons_of_mem p hq))
      unfold openableSkills at this
      rw [this, List.length_cons]

theorem openableSkills_length_lt (skills : List (String × BotProjectSpaceSkill))
    (n₀ : String) (sk₀ : BotProjectSpaceSkill) (hmem : (n₀, sk₀) ∈ skills)
    (hnone : skillPromiseKind sk₀ = none) :
    (openableSkills skills).length < skills.length := by
  induction skills with
  | nil => simp at hmem
  | cons p ps ih =>
    unfold openableSkills
    rw [List.filterMap_cons, List.length_cons]
    rcases List.mem_cons.mp hmem with heq | hmem₂
    · subst heq
      rw [show skillPromiseKind (n₀, sk₀).2 = none from hnone]
      simp only [Option.map_none']
      have hle := List.length_filterMap_le
        (fun p => (skillPromiseKind p.2).map fun isRemote => (p.1, isRemote)) ps
      omega
    · have hlt := ih hmem₂
      unfold openableSkills at hlt
      cases hk : skillPromiseKind p.2 with
      | none =>
        simp only [Option.map_none']
        omega
      | some r =>
        simp only [Option.map_some']
        rw [List.length_cons]
        omega

theorem mem_openableSkills (skills : List (String × BotProjectSpaceSkill))
    (n : String) (r : Bool) :
    (n, r) ∈ openableSkills skills
      ↔ ∃ sk, (n, sk) ∈ skills ∧ skillPromiseKind sk = some r := by
  unfold openableSkills
  rw [List.mem_filterMap]
  constructor
  · rintro ⟨⟨n', sk⟩, hmem, hf⟩
    simp only [Option.map_eq_some'] at hf
    obtain ⟨r', hr', heq⟩ := hf
    obtain ⟨rfl, rfl⟩ : n' = n ∧ r' = r := by
      constructor <;> [exact congrArg Prod.fst heq; exact congrArg Prod.snd heq]
    exact ⟨sk, hmem, hr'⟩
  · rintro ⟨sk, hmem, hk⟩
    exact ⟨(n, sk), hmem, by simp [hk]⟩

theorem eq_of_mem_nodup_fst (skills : List (String × BotProjectSpaceSkill))
    (hnodup : (skills.map Prod.fst).Nodup) (n : String)
    (sk sk₂ : BotProjectSpaceSkill) (h₁ : (n, sk) ∈ skills) (h₂ : (n, sk₂) ∈ skills) :
    sk = sk₂ := by
  induction skills with
  | nil => simp at h₁
  | cons p ps ih =>
    rw [List.map_cons, List.nodup_cons] at hnodup
    rcases List.mem_cons.mp h₁ with he₁ | hm₁ <;> rcases List.mem_cons.mp h₂ with he₂ | hm₂
    · exact congrArg Prod.snd (he₁.trans he₂.symm)
    · exfalso
      apply hnodup.1
      have hn : p.1 = n := by rw [← he₁]
      rw [hn]
      simpa using List.mem_map_of_mem Prod.fst hm₂
    · exfalso
      apply hnodup.1
      have hn : p.1 = n := by rw [← he₂]
      rw [hn]
      simpa using List.mem_map_of_mem Prod.fst hm₁
    · exact ih hnodup.2 hm₁ hm₂

theorem openRootBotAndSkills_cons_eq (rootBotProjectId rootBotName rootNameIdentifier : String)
    (p : String × BotProjectSpaceSkill) (ps : List (String × BotProjectSpaceSkill))
    (cs : List SkillCompletion) (s₀ : ClientState) :
    openRootBotAndSkills rootBotProjectId rootBotName rootNameIdentifier (p :: ps) cs s₀
      = cs.foldl (processCompletion (ps.length + 1 + 1))
          { s₀ with
            botDisplayName := mapSet s₀.botDisplayName rootBotProjectId rootBotName,
            botNameIdentifier := mapSet s₀.botNameIdentifier rootBotProjectId rootNameIdentifier,
            botProjectIds := [rootBotProjectId] } := by
  simp only [openRootBotAndSkills, List.length_cons]
  rw [if_pos (by omega)]

theorem openRootBotAndSkills_nil_eq (rootBotProjectId rootBotName rootNameIdentifier : String)
    (cs : List SkillCompletion) (s₀ : ClientState) :
    openRootBotAndSkills rootBotProjectId rootBotName rootNameIdentifier [] cs s₀
      = { s₀ with
          botDisplayName := mapSet s₀.botDisplayName rootBotProjectId rootBotName,
          botNameIdentifier := mapSet s₀.botNameIdentifier rootBotProjectId rootNameIdentifier,
          botProjectIds := [rootBotProjectId],
          botProjectSpaceLoaded := true } := by
  simp only [openRootBotAndSkills, List.length_nil]
  rw [if_neg (by omega)]

/-- C2: with every skill producing a promise that settles (opens or
fails), after `k` of the `n` completions the collected project id count
is `k + 1` and the space-loaded flag is true exactly when that count has
reached the expected total `n + 1` — i.e. exactly at (and from) the final
completion, so it is set exactly once; with zero skills the flag is true
immediately after the root bot loads (the `k = 0` instance of the same
statement). -/
theorem C2_loaded_exactly_when_total_reached
    (rootBotProjectId rootBotName rootNameIdentifier : String)
    (skills : List (String × BotProjectSpaceSkill)) (completions : List SkillCompletion)
    (s₀ : ClientState)
    (hopen : ∀ p ∈ skills, (skillPromiseKind p.2).isSome = true)
    (hvalid : ValidCompletions skills completions)
    (hload : s₀.botProjectSpaceLoaded = false) :
    ∀ k, k ≤ completions.length →
      (openRootBotAndSkills rootBotProjectId rootBotName rootNameIdentifier skills
          (completions.take k) s₀).botProjectIds.length = k + 1
      ∧ (openRootBotAndSkills rootBotProjectId rootBotName rootNameIdentifier skills
          (completions.take k) s₀).botProjectSpaceLoaded = decide (k = skills.length) := by
  have hlen : completions.length = skills.length := by
    have h₁ := hvalid.length_eq
    rw [List.length_map] at h₁
    rw [h₁, openableSkills_length_of_all_open skills hopen]
  intro k hk
  cases skills with
  | nil =>
    have hk0 : k = 0 := by
      rw [hlen] at hk
      simpa using hk
    subst hk0
    rw [openRootBotAndSkills_nil_eq]
    exact ⟨rfl, rfl⟩
  | cons p ps =>
    simp only [List.length_cons] at hlen
    constructor
    · rw [openRootBotAndSkills_cons_eq, foldl_processCompletion_botProjectIds]
      dsimp only
      simp only [List.length_append, List.length_map, List.length_take,
        List.length_cons, List.length_nil]
      omega
    · rw [openRootBotAndSkills_cons_eq, foldl_processCompletion_loaded]
      dsimp only
      rw [hload, Bool.false_or]
      simp only [List.length_cons, List.length_nil, List.length_take]
      exact decide_eq_decide.mpr (by omega)

/-- Witness for C2: one local skill, one successful completion — the flag
turns true exactly at the single completion. -/
theorem C2_loaded_exactly_when_total_reached_witness :
    (openRootBotAndSkills "root" "Root" "root"
        [("s1", ⟨false, some "path", none⟩)]
        [⟨"s1", false, SkillOutcome.success "pid1"⟩]
        ⟨[], false, fun _ => none, fun _ => none, fun _ => none, fun _ => none⟩
      ).botProjectIds.length = 2
    ∧ (openRootBotAndSkills "root" "Root" "root"
        [("s1", ⟨false, some "path", none⟩)]
        [⟨"s1", false, SkillOutcome.success "pid1"⟩]
        ⟨[], false, fun _ => none, fun _ => none, fun _ => none, fun _ => none⟩
      ).botProjectSpaceLoaded = true :=
  C2_loaded_exactly_when_total_reached "root" "Root" "root"
    [("s1", ⟨false, some "path", none⟩)]
    [⟨"s1", false, SkillOutcome.success "pid1"⟩]
    ⟨[], false, fun _ => none, fun _ => none, fun _ => none, fun _ => none⟩
    (by decide) (List.Perm.refl _) rfl 1 (by decide)

/-- C3: a rejected skill load is handled per-skill: under the fresh
generated project id the display name and name identifier are set to the
skill's name identifier, the error is attached to that project's error
state, the placeholder is still counted toward the total, and every
sibling completion still contributes its project id (no sibling is
aborted or blocked). -/
theorem C3_skill_failure_handled_per_skill
    (rootBotProjectId rootBotName rootNameIdentifier : String)
    (skills : List (String × BotProjectSpaceSkill)) (completions : List SkillCompletion)
    (s₀ : ClientState) (cs₁ cs₂ : List SkillCompletion)
    (n : String) (r : Bool) (f : String) (ex : ProjErr)
    (hsplit : completions = cs₁ ++ ⟨n, r, .failure f ex⟩ :: cs₂)
    (hvalid : ValidCompletions skills completions)
    (hfresh : ∀ c' ∈ cs₂, completionWritesAt c' ≠ some f) :
    (openRootBotAndSkills rootBotProjectId rootBotName rootNameIdentifier skills
        completions s₀).botDisplayName f = some n
    ∧ (openRootBotAndSkills rootBotProjectId rootBotName rootNameIdentifier skills
        completions s₀).botNameIdentifier f = some n
    ∧ (openRootBotAndSkills rootBotProjectId rootBotName rootNameIdentifier skills
        completions s₀).botError f = some (storedBotError ex)
    ∧ f ∈ (openRootBotAndSkills rootBotProjectId rootBotName rootNameIdentifier skills
        completions s₀).botProjectIds
    ∧ (openRootBotAndSkills rootBotProjectId rootBotName rootNameIdentifier skills
        completions s₀).botProjectIds
      = rootBotProjectId :: completions.map completionId := by
  obtain ⟨p, ps, rfl⟩ : ∃ p ps, skills = p :: ps := by
    cases skills with
    | cons p ps => exact ⟨p, ps, rfl⟩
    | nil =>
      exfalso
      have hmapnil := List.Perm.eq_nil hvalid
      rw [List.map_eq_nil_iff] at hmapnil
      rw [hmapnil] at hsplit
      exact List.cons_ne_nil _ _ (List.append_eq_nil.mp hsplit.symm).2
  subst hsplit
  have key : ∀ S : ClientState,
      (cs₂.foldl (processCompletion (ps.length + 1 + 1))
        (processCompletion (ps.length + 1 + 1) S ⟨n, r, .failure f ex⟩)).botDisplayName f
        = some n
      ∧ (cs₂.foldl (processCompletion (ps.length + 1 + 1))
        (processCompletion (ps.length + 1 + 1) S ⟨n, r, .failure f ex⟩)).botNameIdentifier f
        = some n
      ∧ (cs₂.foldl (processCompletion (ps.length + 1 + 1))
        (processCompletion (ps.length + 1 + 1) S ⟨n, r, .failure f ex⟩)).botError f
        = some (storedBotError ex) := by
    intro S
    obtain ⟨hd, hni, he⟩ := foldl_processCompletion_maps_stable (ps.length + 1 + 1) cs₂
      (processCompletion (ps.length + 1 + 1) S ⟨n, r, .failure f ex⟩) f hfresh
    have heq : processCompletion (ps.length + 1 + 1) S ⟨n, r, .failure f ex⟩
        = addProjectToBotProjectSpace (ps.length + 1 + 1) f
            { S with
              projectMetaData := mapSet S.projectMetaData f (false, r),
              botDisplayName := mapSet S.botDisplayName f n,
              botNameIdentifier := mapSet S.botNameIdentifier f n,
              botError := mapSet S.botError f (storedBotError ex) } := by
      show addProjectToBotProjectSpace _ f (handleSkillLoadingFailure f r n ex S) = _
      rw [handleSkillLoadingFailure_eq]
    refine ⟨hd.trans ?_, hni.trans ?_, he.trans ?_⟩ <;> rw [heq] <;>
      exact mapSet_self _ _ _
  refine ⟨?_, ?_, ?_, ?_, ?_⟩
  · rw [openRootBotAndSkills_cons_eq, List.foldl_append, List.foldl_cons]
    exact (key _).1
  · rw [openRootBotAndSkills_cons_eq, List.foldl_append, List.foldl_cons]
    exact (key _).2.1
  · rw [openRootBotAndSkills_cons_eq, List.foldl_append, List.foldl_cons]
    exact (key _).2.2
  · rw [openRootBotAndSkills_cons_eq, foldl_processCompletion_botProjectIds]
    have hc : (⟨n, r, .failure f ex⟩ : SkillCompletion)
        ∈ cs₁ ++ ⟨n, r, .failure f ex⟩ :: cs₂ :=
      List.mem_append_right _ (List.mem_cons_self _ _)
    exact List.mem_append_right _ (List.mem_map_of_mem completionId hc)
  · rw [openRootBotAndSkills_cons_eq, foldl_processCompletion_botProjectIds]
    rfl

/-- Witness for C3: a single failing skill produces a placeholder under
the fresh id with the skill's name identifier and the attached error. -/
theorem C3_skill_failure_handled_per_skill_witness :
    (openRootBotAndSkills "root" "Root" "root"
        [("bad", ⟨false, some "w", none⟩)]
        [⟨"bad", false, SkillOutcome.failure "fresh1" ⟨none, some "boom"⟩⟩]
        ⟨[], false, fun _ => none, fun _ => none, fun _ => none, fun _ => none⟩
      ).botDisplayName "fresh1" = some "bad"
    ∧ (openRootBotAndSkills "root" "Root" "root"
        [("bad", ⟨false, some "w", none⟩)]
        [⟨"bad", false, SkillOutcome.failure "fresh1" ⟨none, some "boom"⟩⟩]
        ⟨[], false, fun _ => none, fun _ => none, fun _ => none, fun _ => none⟩
      ).botNameIdentifier "fresh1" = some "bad"
    ∧ (openRootBotAndSkills "root" "Root" "root"
        [("bad", ⟨false, some "w", none⟩)]
        [⟨"bad", false, SkillOutcome.failure "fresh1" ⟨none, some "boom"⟩⟩]
        ⟨[], false, fun _ => none, fun _ => none, fun _ => none, fun _ => none⟩
      ).botError "fresh1" = some (BotError.raw ⟨none, some "boom"⟩)
    ∧ "fresh1" ∈ (openRootBotAndSkills "root" "Root" "root"
        [("bad", ⟨false, some "w", none⟩)]
        [⟨"bad", false, SkillOutcome.failure "fresh1" ⟨none, some "boom"⟩⟩]
        ⟨[], false, fun _ => none, fun _ => none, fun _ => none, fun _ => none⟩
      ).botProjectIds
    ∧ (openRootBotAndSkills "root" "Root" "root"
        [("bad", ⟨false, some "w", none⟩)]
        [⟨"bad", false, SkillOutcome.failure "fresh1" ⟨none, some "boom"⟩⟩]
        ⟨[], false, fun _ => none, fun _ => none, fun _ => none, fun _ => none⟩
      ).botProjectIds = ["root", "fresh1"] :=
  C3_skill_failure_handled_per_skill "root" "Root" "root"
    [("bad", ⟨false, some "w", none⟩)]
    [⟨"bad", false, SkillOutcome.failure "fresh1" ⟨none, some "boom"⟩⟩]
    ⟨[], false, fun _ => none, fun _ => none, fun _ => none, fun _ => none⟩
    [] [] "bad" false "fresh1" ⟨none, some "boom"⟩ rfl (List.Perm.refl _)
    (by simp)

/-- C9: an entry of the skill mapping that is neither locally nor
remotely openable gets no promise — no completion carries its name — and
since it is still counted in the expected total, the space-loaded flag
stays false after every prefix of the remaining completions. -/
theorem C9_unopenable_skill_blocks_loaded
    (rootBotProjectId rootBotName rootNameIdentifier : String)
    (skills : List (String × BotProjectSpaceSkill)) (completions : List SkillCompletion)
    (s₀ : ClientState) (n₀ : String) (sk₀ : BotProjectSpaceSkill)
    (hmem : (n₀, sk₀) ∈ skills) (hnone : skillPromiseKind sk₀ = none)
    (hnodup : (skills.map Prod.fst).Nodup)
    (hvalid : ValidCompletions skills completions)
    (hload : s₀.botProjectSpaceLoaded = false) :
    (∀ c ∈ completions, c.nameIdentifier ≠ n₀)
    ∧ ∀ k, k ≤ completions.length →
      (openRootBotAndSkills rootBotProjectId rootBotName rootNameIdentifier skills
          (completions.take k) s₀).botProjectSpaceLoaded = false := by
  have hlen : completions.length < skills.length := by
    have h₁ := hvalid.length_eq
    rw [List.length_map] at h₁
    rw [h₁]
    exact openableSkills_length_lt skills n₀ sk₀ hmem hnone
  constructor
  · intro c hc hne
    have hmemo : (c.nameIdentifier, c.isRemote) ∈ openableSkills skills :=
      hvalid.subset (List.mem_map_of_mem _ hc)
    obtain ⟨sk, hsk, hk⟩ := (mem_openableSkills skills _ _).mp hmemo
    rw [hne] at hsk
    have hsk₀ := eq_of_mem_nodup_fst skills hnodup n₀ sk sk₀ hsk hmem
    rw [hsk₀, hnone] at hk
    exact Option.noConfusion hk
  · intro k hk
    obtain ⟨p, ps, rfl⟩ : ∃ p ps, skills = p :: ps := by
      cases skills with
      | nil => simp at hmem
      | cons p ps => exact ⟨p, ps, rfl⟩
    simp only [List.length_cons] at hlen
    rw [openRootBotAndSkills_cons_eq, foldl_processCompletion_loaded]
    dsimp only
    rw [hload, Bool.false_or]
    simp only [List.length_cons, List.length_nil, List.length_take]
    exact decide_eq_false (by omega)

/-- Witness for C9: one dead skill entry, no completions — the flag stays
false. -/
theorem C9_unopenable_skill_blocks_loaded_witness :
    (∀ c ∈ ([] : List SkillCompletion), c.nameIdentifier ≠ "dead")
    ∧ ∀ k, k ≤ ([] : List SkillCompletion).length →
      (openRootBotAndSkills "root" "Root" "root"
          [("dead", ⟨false, none, none⟩)]
          (([] : List SkillCompletion).take k)
          ⟨[], false, fun _ => none, fun _ => none, fun _ => none, fun _ => none⟩
        ).botProjectSpaceLoaded = false :=
  C9_unopenable_skill_blocks_loaded "root" "Root" "root"
    [("dead", ⟨false, none, none⟩)] []
    ⟨[], false, fun _ => none, fun _ => none, fun _ => none, fun _ => none⟩
    "dead" ⟨false, none, none⟩ (by decide) rfl (by decide) (List.Perm.refl _) rfl

/-- C4: the loader entry points always resolve to a
`{botFiles, projectData, error}` tuple — on any failure of the request or
of the project-data processing both payload fields are `undefined` and
`error` carries the exception; on success `error` is `undefined`. -/
theorem C4_fetch_result_tuple (response : Except ProjErr JVal)
    (process : JVal → Except ProjErr JVal) :
    (∀ ex, response = .error ex →
      fetchProjectDataByPath response process = ⟨none, none, some ex⟩
      ∧ fetchProjectDataById response process = ⟨none, none, some ex⟩)
    ∧ (∀ data ex, response = .ok data → process data = .error ex →
      fetchProjectDataByPath response process = ⟨none, none, some ex⟩
      ∧ fetchProjectDataById response process = ⟨none, none, some ex⟩)
    ∧ (∀ data botFiles, response = .ok data → process data = .ok botFiles →
      fetchProjectDataByPath response process = ⟨some botFiles, some data, none⟩
      ∧ fetchProjectDataById response process = ⟨some botFiles, some data, none⟩) := by
  refine ⟨?_, ?_, ?_⟩
  · rintro ex rfl
    exact ⟨rfl, rfl⟩
  · rintro data ex rfl hp
    constructor <;> simp [fetchProjectDataByPath, fetchProjectDataById, loadProjectData, hp]
  · rintro data botFiles rfl hp
    constructor <;> simp [fetchProjectDataByPath, fetchProjectDataById, loadProjectData, hp]

/-- Witness for C4: a successful round trip yields the success tuple with
`error = undefined`. -/
theorem C4_fetch_result_tuple_witness :
    fetchProjectDataByPath (.ok JVal.null) (fun d => .ok d)
      = ⟨some JVal.null, some JVal.null, none⟩
    ∧ fetchProjectDataById (.ok JVal.null) (fun d => .ok d)
      = ⟨some JVal.null, some JVal.null, none⟩ :=
  (C4_fetch_result_tuple (.ok JVal.null) (fun d => .ok d)).2.2 JVal.null JVal.null rfl rfl

/-- C6: a message matching the missing-dotnet pattern sets the dotnet
warning flag; otherwise a missing-functions match sets the functions
warning flag; otherwise both flags are set false and the error is stored
in the application error state. -/
theorem C6_handleProjectFailure_branches
    (checkDotnet checkFunctions : String → Bool) (e : ProjErr) (s : WarnState) :
    (checkDotnet (errMessage e) = true →
      (handleProjectFailure checkDotnet checkFunctions e s).warnAboutDotNet = true)
    ∧ (checkDotnet (errMessage e) = false → checkFunctions (errMessage e) = true →
      (handleProjectFailure checkDotnet checkFunctions e s).warnAboutFunctions = true)
    ∧ (checkDotnet (errMessage e) = false → checkFunctions (errMessage e) = false →
      handleProjectFailure checkDotnet checkFunctions e s
        = { s with warnAboutDotNet := false, warnAboutFunctions := false,
                   applicationError := some e }) := by
  refine ⟨?_, ?_, ?_⟩
  · intro h
    simp [handleProjectFailure, h]
  · intro h₁ h₂
    simp [handleProjectFailure, h₁, h₂]
  · intro h₁ h₂
    simp [handleProjectFailure, h₁, h₂]

/-- Witness for C6: a matching dotnet message raises the dotnet warning
flag. -/
theorem C6_handleProjectFailure_branches_witness :
    (handleProjectFailure (fun m => m == "dotnet missing") (fun _ => false)
      ⟨none, some "dotnet missing"⟩ ⟨false, false, none⟩).warnAboutDotNet = true :=
  (C6_handleProjectFailure_branches (fun m => m == "dotnet missing") (fun _ => false)
    ⟨none, some "dotnet missing"⟩ ⟨false, false, none⟩).1 rfl
